import Mathlib

/- Verification development for the animeface repository: the SinGAN
   image-pyramid schedule (implementations/SinGAN/utils.py), the adversarial
   loss strategies and gradient penalties (implementations/gan_utils/losses.py),
   and the control flow of the SinGAN training loop.

   Numbers handled by the Python code as floats are embedded as exact
   rationals (the pyramid schedule, whose concrete inputs are exactly
   representable) or as real numbers (the loss formulas).  The automatic
   differentiation engine is an external collaborator of the repository
   and appears as an explicit gradient capability of a scorer. -/

/-! ## Image pyramid schedule (SinGAN/utils.py, load_real) -/

/-- Round half to even (banker's rounding), the semantics of Python's
built-in round, on exact rationals. -/
def pyRound (q : ℚ) : ℤ :=
  if q - ⌊q⌋ < 1/2 then ⌊q⌋
  else if 1/2 < q - ⌊q⌋ then ⌊q⌋ + 1
  else if 2 ∣ ⌊q⌋ then ⌊q⌋ else ⌊q⌋ + 1

/-- The size appended at iteration k of the load_real loop:
round(max_size * scale_factor ** len(sizes)). -/
def pyramidSize (max_size : ℤ) (scale_factor : ℚ) (k : ℕ) : ℤ :=
  pyRound ((max_size : ℚ) * scale_factor ^ k)

/-- The while tmp_size > min_size loop of load_real, with explicit fuel:
none models a run that has not finished within the given number of
iterations.  Each iteration appends round(max_size * scale_factor ** len(sizes))
and continues while the appended value exceeds min_size. -/
def sizesLoop (max_size min_size : ℤ) (scale_factor : ℚ) :
    ℕ → List ℤ → ℤ → Option (List ℤ)
  | 0, sizes, tmp_size =>
      if min_size < tmp_size then none else some sizes
  | fuel + 1, sizes, tmp_size =>
      if min_size < tmp_size then
        sizesLoop max_size min_size scale_factor fuel
          (sizes ++ [pyramidSize max_size scale_factor sizes.length])
          (pyramidSize max_size scale_factor sizes.length)
      else some sizes

/-- The size schedule built by load_real: run the loop starting from
tmp_size = max_size with an empty list, then sort ascending. -/
def load_real_sizes (max_size min_size : ℤ) (scale_factor : ℚ)
    (fuel : ℕ) : Option (List ℤ) :=
  (sizesLoop max_size min_size scale_factor fuel [] max_size).map
    (List.insertionSort (· ≤ ·))

/-- The loop of load_real never finishes, whatever iteration bound it is given. -/
def neverTerminates (max_size min_size : ℤ) (scale_factor : ℚ) : Prop :=
  ∀ fuel, load_real_sizes max_size min_size scale_factor fuel = none

/-! ## Adversarial loss strategies (gan_utils/losses.py)

A score tensor is embedded as a list of per-sample real scores; the
elementwise framework operations become maps over the list and .mean()
becomes sum divided by length. -/

/-- Mean of a list of reals, the embedding of Tensor.mean(). -/
noncomputable def tmean (l : List ℝ) : ℝ := l.sum / l.length

/-- F.mse_loss with default mean reduction: the mean of the squared
elementwise differences. -/
noncomputable def mse_loss (input target : List ℝ) : ℝ :=
  tmean (List.zipWith (fun a b => (a - b) ^ 2) input target)

/-- F.softplus, softplus(x) = log(1 + exp(x)). -/
noncomputable def softplus (x : ℝ) : ℝ := Real.log (1 + Real.exp x)

/-- GANLoss.g_loss: F.softplus(- fake_prob).mean(). -/
noncomputable def GANLoss.g_loss (fake_prob : List ℝ) : ℝ :=
  tmean (fake_prob.map (fun x => softplus (-x)))

/-- LSGANLoss.g_loss: F.mse_loss(fake_prob, ones) / 2. -/
noncomputable def LSGANLoss.g_loss (fake_prob : List ℝ) : ℝ :=
  mse_loss fake_prob (List.replicate fake_prob.length 1) / 2

/-- LSGANLoss.d_loss:
(F.mse_loss(real_prob, ones) + F.mse_loss(fake_prob, zeros)) / 2. -/
noncomputable def LSGANLoss.d_loss (real_prob fake_prob : List ℝ) : ℝ :=
  (mse_loss real_prob (List.replicate real_prob.length 1)
    + mse_loss fake_prob (List.replicate fake_prob.length 0)) / 2

/-- WGANLoss.g_loss: - fake_prob.mean(). -/
noncomputable def WGANLoss.g_loss (fake_prob : List ℝ) : ℝ :=
  - tmean fake_prob

/-- HingeLoss.g_loss: - fake_prob.mean(). -/
noncomputable def HingeLoss.g_loss (fake_prob : List ℝ) : ℝ :=
  - tmean fake_prob

/-! ## Gradient penalties (gan_utils/losses.py and SinGAN/utils.py)

An image is embedded as a list of rows of real entries (its trailing
tensor dimensions), a batch as a list of images.  The autograd engine is
an external collaborator: a scorer carries, besides its per-sample scalar
score, the gradient of the sum of its scores with respect to its input,
which is what autograd.grad with grad_outputs of ones computes, and also
what grad of D(x)[:, 0].sum() computes for a per-sample scalar scorer. -/

/-- A sample image: the trailing dimensions of one batch element, before
the per-sample flattening done by view / reshape. -/
abbrev GanImage := List (List ℝ)

/-- A batch of images. -/
abbrev GanBatch := List GanImage

/-- Scalar times image, elementwise (scalar on the left). -/
noncomputable def imageSMulLeft (c : ℝ) (im : GanImage) : GanImage :=
  im.map (fun row => row.map (fun x => c * x))

/-- Image times scalar, elementwise (scalar on the right). -/
noncomputable def imageSMulRight (im : GanImage) (c : ℝ) : GanImage :=
  im.map (fun row => row.map (fun x => x * c))

/-- Elementwise sum of two images. -/
noncomputable def imageAdd (a b : GanImage) : GanImage :=
  List.zipWith (List.zipWith (· + ·)) a b

/-- Per-sample flattening, the embedding of view(B, -1) / reshape(B, -1). -/
def imageFlatten (im : GanImage) : List ℝ := im.flatten

/-- Euclidean norm of a flattened sample, Tensor.norm(2, dim=1). -/
noncomputable def norm2 (v : List ℝ) : ℝ :=
  Real.sqrt ((v.map (fun x => x ^ 2)).sum)

/-- A discriminator together with the autograd capability of the external
framework: score is the per-sample scalar output of forward, and gradSum x
is the gradient, with respect to x, of the sum over the batch of the
scores at x (kept differentiable by create_graph=True in the source). -/
structure Scorer where
  score : GanBatch → List ℝ
  gradSum : GanBatch → GanBatch

/-- calc_gradient_penalty_one (SinGAN/utils.py): alpha is the per-sample
vector of interpolation coefficients, drawn uniformly from [0,1) with
shape (B,1,1,1) and broadcast over each sample; interpolates is
alpha * real_image + ((1 - alpha) * fake_image); the gradients come from
autograd.grad with grad_outputs of ones, per-sample flattened by view;
the penalty is ((gradients.norm(2, dim=1) - 1) ** 2).mean(). -/
noncomputable def calc_gradient_penalty_one (D : Scorer)
    (real_image fake_image : GanBatch) (alpha : List ℝ) : ℝ :=
  let interpolates := List.zipWith
    (fun a rf => imageAdd (imageSMulLeft a rf.1) (imageSMulLeft (1 - a) rf.2))
    alpha (real_image.zip fake_image)
  let gradients := D.gradSum interpolates
  tmean (gradients.map (fun g => (norm2 (imageFlatten g) - 1) ^ 2))

/-- calc_gradient_penalty_zero (SinGAN/utils.py): the gradient of
D.forward(real_image)[:, 0].sum() with respect to real_image, per-sample
flattened; returns (gradients ** 2).sum(dim=1).mean() / 2. -/
noncomputable def calc_gradient_penalty_zero (D : Scorer)
    (real_image : GanBatch) : ℝ :=
  let gradients := D.gradSum real_image
  tmean (gradients.map (fun g => ((imageFlatten g).map (fun x => x ^ 2)).sum)) / 2

/-- GradPenalty.gradient_penalty (gan_utils/losses.py): one scalar alpha
per call (torch.rand(1)); x_hat = real * alpha + fake * (1 - alpha); the
assert center in [1., 0., 1, 0] is modelled as a guard returning none on
violation; this is the scaler=None code path of _calc_grad, which is the
plain autograd gradient of the summed scores. -/
noncomputable def GradPenalty.gradient_penalty (real fake : GanBatch)
    (D : Scorer) (alpha center : ℝ) : Option ℝ :=
  if center = 1 ∨ center = 0 then
    let x_hat := List.zipWith
      (fun r f => imageAdd (imageSMulRight r alpha) (imageSMulRight f (1 - alpha)))
      real fake
    let gradients := D.gradSum x_hat
    some (tmean (gradients.map (fun g => (norm2 (imageFlatten g) - center) ^ 2)))
  else none

/-- GradPenalty.r1_regularizer (gan_utils/losses.py): gradient of the
summed scores on the real batch, per-sample flattened; returns
gradients.norm(2, dim=1).pow(2).mean() / 2. -/
noncomputable def GradPenalty.r1_regularizer (real : GanBatch) (D : Scorer) : ℝ :=
  let gradients := D.gradSum real
  tmean (gradients.map (fun g => norm2 (imageFlatten g) ^ 2)) / 2

/-- Tensor.std() with the default unbiased estimator, over all entries of
a batch. -/
noncomputable def tensorStd (b : GanBatch) : ℝ :=
  let v := (b.map imageFlatten).flatten
  Real.sqrt ((v.map (fun x => (x - tmean v) ^ 2)).sum / ((v.length : ℝ) - 1))

/-- GradPenalty.dragan_gradient_penalty (gan_utils/losses.py): forms
x_hat = real * alpha + (1 - alpha) * (real + 0.5 * real.std() * beta) and
computes the gradients, but the penalty line then references the name
center, which is bound nowhere in the method, so every call fails with a
NameError instead of returning a value; the failure is modelled as none. -/
noncomputable def GradPenalty.dragan_gradient_penalty (real : GanBatch)
    (D : Scorer) (alpha : List ℝ) (beta : GanBatch) : Option ℝ :=
  let x_hat := List.zipWith
    (fun a rb => imageAdd (imageSMulRight rb.1 a)
      (imageSMulLeft (1 - a)
        (imageAdd rb.1 (imageSMulLeft (0.5 * tensorStd real) rb.2))))
    alpha (real.zip beta)
  let gradients := D.gradSum x_hat
  none

/-! ### Specification-side definitions (section 4.2 of the spec)

These restate the gradient-penalty contracts in the spec's own words, to
be compared with the embeddings of the source functions above. -/

/-- Spec, one-centered mode, interpolation with a per-sample coefficient:
x_hat = alpha * real + (1 - alpha) * fake. -/
noncomputable def spec_interp_per_sample (alpha : List ℝ)
    (real fake : GanBatch) : GanBatch :=
  List.zipWith
    (fun a rf => imageAdd (imageSMulLeft a rf.1) (imageSMulLeft (1 - a) rf.2))
    alpha (real.zip fake)

/-- Spec, one-centered mode, interpolation with one scalar coefficient per
call: x_hat = alpha * real + (1 - alpha) * fake. -/
noncomputable def spec_interp_scalar (alpha : ℝ) (real fake : GanBatch) : GanBatch :=
  List.zipWith
    (fun r f => imageAdd (imageSMulLeft alpha r) (imageSMulLeft (1 - alpha) f))
    real fake

/-- Spec, one-centered mode: take the gradient of the score sum with
respect to x_hat, flatten per sample, compute the L2 norm per sample, and
return mean((norm - center)^2). -/
noncomputable def spec_one_centered_penalty (D : Scorer) (x_hat : GanBatch)
    (center : ℝ) : ℝ :=
  tmean ((D.gradSum x_hat).map (fun g => (norm2 (imageFlatten g) - center) ^ 2))

/-- Spec, zero-centered mode: gradient of the score sum with respect to
the real batch, flatten, L2-norm per sample, and return mean(norm^2) / 2. -/
noncomputable def spec_zero_centered_penalty (D : Scorer) (real : GanBatch) : ℝ :=
  tmean ((D.gradSum real).map (fun g => norm2 (imageFlatten g) ^ 2)) / 2

/-! ## The SinGAN training loop (SinGAN/utils.py, train)

The loop is embedded by the sequence of optimizer-creation,
discriminator-step, generator-step and progress events it performs,
together with the error it raises, if any: a result is a pair of the
events executed before returning or raising, and the raised error. -/

/-- Observable events of one training run. -/
inductive TrainEvent : Type where
  | optimizersCreated : ℕ → TrainEvent
  | dStep : ℕ → TrainEvent
  | gStep : ℕ → TrainEvent
  | progressG : ℕ → TrainEvent
  | progressD : ℕ → TrainEvent
deriving DecidableEq, Repr

/-- The events executed so far, and the error raised, if any. -/
abbrev TrainRes := List TrainEvent × Option String

/-- Sequencing: run a; if it raised, stop there, otherwise run b. -/
def seqRun (a b : TrainRes) : TrainRes :=
  match a.2 with
  | some e => (a.1, some e)
  | none => (a.1 ++ b.1, b.2)

/-- Run the same body n times. -/
def iterRun (a : TrainRes) : ℕ → TrainRes
  | 0 => ([], none)
  | n + 1 => seqRun a (iterRun a n)

/-- Run a body once per list element, in order. -/
def listRun {α : Type} (f : α → TrainRes) : List α → TrainRes
  | [] => ([], none)
  | x :: xs => seqRun (f x) (listRun f xs)

/-- One discriminator step at the given scale.  The gradient-penalty
dispatch inside the step has no else branch in the source (if 'zero' ...
elif 'one' ...): for any other gp_type the subsequent use of gp would
raise a NameError, modelled as an error result. -/
def dStepRun (gp_type : String) (scale : ℕ) : TrainRes :=
  if gp_type = "zero" then ([TrainEvent.dStep scale], none)
  else if gp_type = "one" then ([TrainEvent.dStep scale], none)
  else ([], some "NameError: name gp is not defined")

/-- One generator step at the given scale. -/
def gStepRun (scale : ℕ) : TrainRes := ([TrainEvent.gStep scale], none)

/-- One epoch: D_step discriminator steps, then G_step generator steps. -/
def epochRun (gp_type : String) (scale D_step G_step : ℕ) : TrainRes :=
  seqRun (iterRun (dStepRun gp_type scale) D_step)
    (iterRun (gStepRun scale) G_step)

/-- One scale: create the two optimizers, run the epochs, and progress
G and D afterwards unless this is the last scale. -/
def scaleRun (gp_type : String) (num_scales scale epochs D_step G_step : ℕ) :
    TrainRes :=
  seqRun ([TrainEvent.optimizersCreated scale], none)
    (seqRun (iterRun (epochRun gp_type scale D_step G_step) epochs)
      (if scale + 1 < num_scales then
        ([TrainEvent.progressG scale, TrainEvent.progressD scale], none)
      else ([], none)))

/-- The train function of SinGAN/utils.py.  The gp_type dispatch at the
top of train raises for any type other than one / zero, before the scale
loop starts; otherwise the scales run in order. -/
def train (gp_type : String) (epochses : List ℕ) (D_step G_step : ℕ) : TrainRes :=
  if gp_type = "one" ∨ gp_type = "zero" then
    listRun (fun p => scaleRun gp_type epochses.length p.1 p.2 D_step G_step)
      epochses.enum
  else ([], some ("no such type " ++ gp_type ++ "."))

/-- Closed form of the event sequence of one scale on a valid run. -/
def scaleTrace (num_scales scale epochs D_step G_step : ℕ) : List TrainEvent :=
  TrainEvent.optimizersCreated scale ::
    ((List.replicate epochs
        (List.replicate D_step (TrainEvent.dStep scale)
          ++ List.replicate G_step (TrainEvent.gStep scale))).flatten
      ++ (if scale + 1 < num_scales then
            [TrainEvent.progressG scale, TrainEvent.progressD scale]
          else []))

/-- Closed form of the event sequence of a whole valid run. -/
def trainTrace (epochses : List ℕ) (D_step G_step : ℕ) : List TrainEvent :=
  (epochses.enum.map
    (fun p => scaleTrace epochses.length p.1 p.2 D_step G_step)).flatten

/-- Recognizer for generator progress events. -/
def isProgressG : TrainEvent → Bool
  | TrainEvent.progressG _ => true
  | _ => false

/-- Recognizer for discriminator progress events. -/
def isProgressD : TrainEvent → Bool
  | TrainEvent.progressD _ => true
  | _ => false

/-- A degenerate scorer: identically-zero scores with the identity as its
gradient capability, used to instantiate the penalty theorems. -/
noncomputable def idGradScorer : Scorer :=
  { score := fun b => b.map (fun _ => 0), gradSum := fun b => b }

/-! ## Helper lemmas: pyRound -/

theorem floor_le_pyRound (q : ℚ) : ⌊q⌋ ≤ pyRound q := by
  unfold pyRound
  split_ifs <;> omega

theorem pyRound_le (q : ℚ) : (pyRound q : ℚ) ≤ q + 1/2 := by
  have hfl : (⌊q⌋ : ℚ) ≤ q := Int.floor_le q
  unfold pyRound
  split_ifs with h1 h2 h3 <;> push_cast <;> linarith

theorem pyRound_intCast (z : ℤ) : pyRound (z : ℚ) = z := by
  unfold pyRound
  rw [Int.floor_intCast]
  norm_num

theorem pyRound_nonneg {q : ℚ} (h : 0 ≤ q) : 0 ≤ pyRound q :=
  le_trans (Int.le_floor.mpr (by exact_mod_cast h)) (floor_le_pyRound q)

/-! ## Helper lemmas: divergence of the pyramid loop -/

theorem sizesLoop_one_none (fuel : ℕ) :
    ∀ sizes : List ℤ, sizesLoop 100 25 1 fuel sizes 100 = none := by
  induction fuel with
  | zero => intro sizes; simp [sizesLoop]
  | succ n ih =>
      intro sizes
      have hsz : pyramidSize 100 1 sizes.length = 100 := by
        simp only [pyramidSize, one_pow, mul_one]
        exact_mod_cast pyRound_intCast 100
      rw [sizesLoop, if_pos (by norm_num), hsz]
      exact ih _

theorem sizesLoop_neg_min_none (fuel : ℕ) :
    ∀ (sizes : List ℤ) (tmp : ℤ), 0 ≤ tmp →
      sizesLoop 1 (-1) (1/2) fuel sizes tmp = none := by
  induction fuel with
  | zero => intro sizes tmp htmp; rw [sizesLoop, if_pos (by omega)]
  | succ n ih =>
      intro sizes tmp htmp
      rw [sizesLoop, if_pos (by omega)]
      exact ih _ _ (pyRound_nonneg (by positivity))

/-! ## Helper lemmas: the pyramid loop on a valid configuration -/

/-- Running the loop from the state reached after j iterations: if the
first n sizes exceed min_size and the (n+1)-st does not, the loop stops
after appending exactly the sizes of indices 0..n. -/
theorem sizesLoop_run (max_size min_size : ℤ) (sf : ℚ) (n : ℕ)
    (hmin : ∀ i, i < n → min_size < pyramidSize max_size sf i)
    (hn : pyramidSize max_size sf n ≤ min_size) :
    ∀ (fuel j : ℕ) (tmp : ℤ), j ≤ n + 1 → n + 1 - j ≤ fuel →
      (j ≤ n → min_size < tmp) → (j = n + 1 → tmp ≤ min_size) →
      sizesLoop max_size min_size sf fuel
          ((List.range j).map (pyramidSize max_size sf)) tmp =
        some ((List.range (n + 1)).map (pyramidSize max_size sf)) := by
  intro fuel
  induction fuel with
  | zero =>
      intro j tmp hj hfuel htmp htmp2
      have hj' : j = n + 1 := by omega
      rw [sizesLoop, if_neg (by have := htmp2 hj'; omega), hj']
  | succ f ih =>
      intro j tmp hj hfuel htmp htmp2
      by_cases hcase : j = n + 1
      · rw [sizesLoop, if_neg (by have := htmp2 hcase; omega), hcase]
      · have hjn : j ≤ n := by omega
        rw [sizesLoop, if_pos (htmp hjn)]
        have hlen : ((List.range j).map (pyramidSize max_size sf)).length = j := by
          simp
        rw [hlen]
        have hconc : (List.range j).map (pyramidSize max_size sf)
              ++ [pyramidSize max_size sf j]
            = (List.range (j + 1)).map (pyramidSize max_size sf) := by
          rw [List.range_succ, List.map_append]
          rfl
        rw [hconc]
        refine ih (j + 1) _ (by omega) (by omega) (fun h => hmin j (by omega)) ?_
        intro h
        have hjn' : j = n := by omega
        rw [hjn']
        exact hn

/-- With a shrink factor below 1 and 0 ≤ min_size < max_size, some
iteration produces a size that no longer exceeds min_size. -/
theorem pyramid_reaches_min (max_size min_size : ℤ) (sf : ℚ)
    (h1 : sf < 1) (hm : 0 ≤ min_size) (hM : min_size < max_size) :
    ∃ k, pyramidSize max_size sf k ≤ min_size := by
  have hMpos : (0 : ℚ) < (max_size : ℚ) := by
    exact_mod_cast lt_of_le_of_lt hm hM
  obtain ⟨k, hk⟩ := exists_pow_lt_of_lt_one
    (show (0 : ℚ) < 1 / (2 * (max_size : ℚ)) by positivity) h1
  refine ⟨k, ?_⟩
  have harg : (max_size : ℚ) * sf ^ k < 1/2 := by
    have := mul_lt_mul_of_pos_left hk hMpos
    calc (max_size : ℚ) * sf ^ k
        < (max_size : ℚ) * (1 / (2 * (max_size : ℚ))) := this
      _ = 1/2 := by field_simp; ring
  have hb := pyRound_le ((max_size : ℚ) * sf ^ k)
  have hlt : (pyramidSize max_size sf k : ℚ) < 1 := by
    unfold pyramidSize
    linarith
  have hle : pyramidSize max_size sf k < 1 := by exact_mod_cast hlt
  omega

/-- Every size in the schedule is at most max_size. -/
theorem pyramidSize_le (max_size : ℤ) (sf : ℚ) (k : ℕ)
    (hM : 0 ≤ max_size) (h0 : 0 ≤ sf) (h1 : sf ≤ 1) :
    pyramidSize max_size sf k ≤ max_size := by
  have harg : (max_size : ℚ) * sf ^ k ≤ (max_size : ℚ) := by
    calc (max_size : ℚ) * sf ^ k
        ≤ (max_size : ℚ) * 1 :=
          mul_le_mul_of_nonneg_left (pow_le_one₀ h0 h1) (by exact_mod_cast hM)
      _ = (max_size : ℚ) := mul_one _
  have hb := pyRound_le ((max_size : ℚ) * sf ^ k)
  have hlt : (pyramidSize max_size sf k : ℚ) < (max_size : ℚ) + 1 := by
    unfold pyramidSize
    linarith
  have : pyramidSize max_size sf k < max_size + 1 := by exact_mod_cast hlt
  omega

/-- Exactly one entry of the unsorted schedule is ≤ min_size, namely the
final boundary entry. -/
theorem pyramid_countP_boundary (max_size min_size : ℤ) (sf : ℚ) (n : ℕ)
    (hmin : ∀ i, i < n → min_size < pyramidSize max_size sf i)
    (hn : pyramidSize max_size sf n ≤ min_size) :
    ((List.range (n + 1)).map (pyramidSize max_size sf)).countP
      (fun x => decide (x ≤ min_size)) = 1 := by
  rw [List.range_succ, List.map_append, List.countP_append]
  have hz : ((List.range n).map (pyramidSize max_size sf)).countP
      (fun x => decide (x ≤ min_size)) = 0 := by
    rw [List.countP_eq_zero]
    intro a ha
    simp only [List.mem_map, List.mem_range] at ha
    obtain ⟨i, hi, rfl⟩ := ha
    simp only [decide_eq_true_eq]
    exact (hmin i hi).not_le
  rw [hz]
  simp [List.countP_cons, hn]

/-- In a sorted list holding exactly one entry ≤ min_size, every entry of
the tail exceeds min_size. -/
theorem sorted_tail_gt (min_size : ℤ) (l : List ℤ) (hs : l.Sorted (· ≤ ·))
    (hc : l.countP (fun x => decide (x ≤ min_size)) = 1) :
    ∀ x ∈ l.tail, min_size < x := by
  cases l with
  | nil => simp
  | cons h t =>
      intro x hx
      by_contra hmx
      push_neg at hmx
      have hht : h ≤ x := (List.sorted_cons.mp hs).1 x hx
      have hhm : h ≤ min_size := le_trans hht hmx
      have hpos : 0 < t.countP (fun y => decide (y ≤ min_size)) :=
        List.countP_pos_iff.mpr ⟨x, hx, by simpa using hmx⟩
      rw [List.countP_cons, if_pos (by simpa using hhm)] at hc
      omega

/-! ## Helper lemmas: loss strategies -/

theorem tmean_singleton (x : ℝ) : tmean [x] = x := by
  simp [tmean]

theorem mse_loss_singleton (a b : ℝ) : mse_loss [a] [b] = (a - b) ^ 2 := by
  simp [mse_loss, tmean_singleton]

theorem gan_g_loss_singleton (x : ℝ) : GANLoss.g_loss [x] = softplus (-x) := by
  simp [GANLoss.g_loss, tmean_singleton]

theorem lsgan_g_loss_singleton (x : ℝ) :
    LSGANLoss.g_loss [x] = (x - 1) ^ 2 / 2 := by
  simp [LSGANLoss.g_loss, mse_loss_singleton]

/-- Softplus is strictly decreasing in the negated argument. -/
theorem softplus_neg_strict_anti {a b : ℝ} (h : a < b) :
    softplus (-b) < softplus (-a) := by
  unfold softplus
  have hexp : Real.exp (-b) < Real.exp (-a) := Real.exp_lt_exp.mpr (by linarith)
  have hpos : (0 : ℝ) < 1 + Real.exp (-b) := by positivity
  exact Real.log_lt_log hpos (by linarith)

/-! ## Helper lemmas: the training loop -/

theorem seqRun_ok {a b : TrainRes} (h : a.2 = none) :
    seqRun a b = (a.1 ++ b.1, b.2) := by
  unfold seqRun
  rw [h]

theorem iterRun_const (evs : List TrainEvent) (n : ℕ) :
    iterRun (evs, none) n = ((List.replicate n evs).flatten, none) := by
  induction n with
  | zero => rfl
  | succ n ih =>
      rw [iterRun, ih, seqRun_ok rfl]
      simp [List.replicate_succ]

theorem listRun_ok {α : Type} (f : α → TrainRes) (l : List α)
    (h : ∀ x ∈ l, (f x).2 = none) :
    listRun f l = ((l.map (fun x => (f x).1)).flatten, none) := by
  induction l with
  | nil => rfl
  | cons x xs ih =>
      rw [listRun, seqRun_ok (h x (by simp)),
        ih (fun y hy => h y (by simp [hy]))]
      simp

theorem dStepRun_ok (gp_type : String)
    (h : gp_type = "one" ∨ gp_type = "zero") (scale : ℕ) :
    dStepRun gp_type scale = ([TrainEvent.dStep scale], none) := by
  rcases h with h | h <;> subst h
  · rw [dStepRun, if_neg (by decide), if_pos rfl]
  · rw [dStepRun, if_pos rfl]

theorem epochRun_ok (gp_type : String)
    (h : gp_type = "one" ∨ gp_type = "zero") (scale D_step G_step : ℕ) :
    epochRun gp_type scale D_step G_step =
      (List.replicate D_step (TrainEvent.dStep scale)
        ++ List.replicate G_step (TrainEvent.gStep scale), none) := by
  rw [epochRun, dStepRun_ok gp_type h, gStepRun, iterRun_const, iterRun_const,
    seqRun_ok rfl]
  simp

theorem scaleRun_ok (gp_type : String)
    (h : gp_type = "one" ∨ gp_type = "zero")
    (num_scales scale epochs D_step G_step : ℕ) :
    scaleRun gp_type num_scales scale epochs D_step G_step =
      (scaleTrace num_scales scale epochs D_step G_step, none) := by
  rw [scaleRun, epochRun_ok gp_type h, iterRun_const]
  by_cases hc : scale + 1 < num_scales
  · rw [if_pos hc, seqRun_ok rfl, seqRun_ok rfl]
    simp [scaleTrace, if_pos hc]
  · rw [if_neg hc, seqRun_ok rfl, seqRun_ok rfl]
    simp [scaleTrace, if_neg hc]

theorem train_ok (gp_type : String)
    (h : gp_type = "one" ∨ gp_type = "zero")
    (epochses : List ℕ) (D_step G_step : ℕ) :
    train gp_type epochses D_step G_step =
      (trainTrace epochses D_step G_step, none) := by
  rw [train, if_pos h,
    listRun_ok _ _ (fun p _ => by rw [scaleRun_ok gp_type h]),
    trainTrace]
  congr 1
  congr 1
  apply List.map_congr_left
  intro p _
  rw [scaleRun_ok gp_type h]

theorem countP_scaleTrace_progressG (num_scales scale epochs D_step G_step : ℕ) :
    (scaleTrace num_scales scale epochs D_step G_step).countP isProgressG
      = if scale + 1 < num_scales then 1 else 0 := by
  rw [scaleTrace, List.countP_cons, List.countP_append]
  have h1 : (List.replicate epochs
      (List.replicate D_step (TrainEvent.dStep scale)
        ++ List.replicate G_step (TrainEvent.gStep scale))).flatten.countP
      isProgressG = 0 := by
    rw [List.countP_eq_zero]
    intro a ha
    simp only [List.mem_flatten, List.mem_replicate, List.mem_append] at ha
    obtain ⟨l', ⟨_, rfl⟩, hal⟩ := ha
    rw [List.mem_append] at hal
    rcases hal with hmem | hmem <;>
      (rw [List.eq_of_mem_replicate hmem]; simp [isProgressG])
  rw [h1]
  by_cases hc : scale + 1 < num_scales
  · rw [if_pos hc, if_pos hc]
    simp [isProgressG]
  · rw [if_neg hc, if_neg hc]
    simp [isProgressG]

theorem countP_scaleTrace_progressD (num_scales scale epochs D_step G_step : ℕ) :
    (scaleTrace num_scales scale epochs D_step G_step).countP isProgressD
      = if scale + 1 < num_scales then 1 else 0 := by
  rw [scaleTrace, List.countP_cons, List.countP_append]
  have h1 : (List.replicate epochs
      (List.replicate D_step (TrainEvent.dStep scale)
        ++ List.replicate G_step (TrainEvent.gStep scale))).flatten.countP
      isProgressD = 0 := by
    rw [List.countP_eq_zero]
    intro a ha
    simp only [List.mem_flatten, List.mem_replicate, List.mem_append] at ha
    obtain ⟨l', ⟨_, rfl⟩, hal⟩ := ha
    rw [List.mem_append] at hal
    rcases hal with hmem | hmem <;>
      (rw [List.eq_of_mem_replicate hmem]; simp [isProgressD])
  rw [h1]
  by_cases hc : scale + 1 < num_scales
  · rw [if_pos hc, if_pos hc]
    simp [isProgressD]
  · rw [if_neg hc, if_neg hc]
    simp [isProgressD]

theorem sum_range_progress (S : ℕ) :
    ((List.range S).map (fun i => if i + 1 < S then (1 : ℕ) else 0)).sum
      = S - 1 := by
  cases S with
  | zero => simp
  | succ S =>
      rw [List.range_succ, List.map_append, List.sum_append]
      have hmap : (List.range S).map (fun i => if i + 1 < S + 1 then (1 : ℕ) else 0)
          = (List.range S).map (fun _ => 1) := by
        apply List.map_congr_left
        intro a ha
        rw [if_pos (by simp only [List.mem_range] at ha; omega)]
      rw [hmap]
      simp

theorem sum_range_single (S s c : ℕ) :
    ((List.range S).map (fun i => if i = s then c else 0)).sum
      = if s < S then c else 0 := by
  induction S with
  | zero => simp
  | succ S ih =>
      rw [List.range_succ, List.map_append, List.sum_append, ih]
      by_cases h1 : s < S
      · rw [if_pos h1, if_pos (by omega)]
        have : ¬ (S = s) := by omega
        simp [this]
      · rw [if_neg h1]
        by_cases h2 : S = s
        · rw [if_pos (by omega)]
          simp [h2]
        · rw [if_neg (by omega)]
          simp [h2]

theorem count_scaleTrace_progressG (num_scales scale epochs D_step G_step s : ℕ) :
    (scaleTrace num_scales scale epochs D_step G_step).count (TrainEvent.progressG s)
      = if scale = s ∧ scale + 1 < num_scales then 1 else 0 := by
  have h0 : (List.replicate epochs
      (List.replicate D_step (TrainEvent.dStep scale)
        ++ List.replicate G_step (TrainEvent.gStep scale))).flatten.count
      (TrainEvent.progressG s) = 0 := by
    rw [List.count_eq_zero]
    intro hmem
    simp only [List.mem_flatten, List.mem_replicate] at hmem
    obtain ⟨l', ⟨_, rfl⟩, hal⟩ := hmem
    rw [List.mem_append] at hal
    rcases hal with hm | hm <;> simpa using List.eq_of_mem_replicate hm
  rw [scaleTrace, List.count_cons, List.count_append, h0]
  by_cases hc : scale + 1 < num_scales
  · rw [if_pos hc]
    by_cases hs : scale = s
    · subst hs
      simp [List.count_cons, hc]
    · simp [List.count_cons, hs, hc]
  · rw [if_neg hc]
    simp [List.count_cons, hc]

theorem count_scaleTrace_progressD (num_scales scale epochs D_step G_step s : ℕ) :
    (scaleTrace num_scales scale epochs D_step G_step).count (TrainEvent.progressD s)
      = if scale = s ∧ scale + 1 < num_scales then 1 else 0 := by
  have h0 : (List.replicate epochs
      (List.replicate D_step (TrainEvent.dStep scale)
        ++ List.replicate G_step (TrainEvent.gStep scale))).flatten.count
      (TrainEvent.progressD s) = 0 := by
    rw [List.count_eq_zero]
    intro hmem
    simp only [List.mem_flatten, List.mem_replicate] at hmem
    obtain ⟨l', ⟨_, rfl⟩, hal⟩ := hmem
    rw [List.mem_append] at hal
    rcases hal with hm | hm <;> simpa using List.eq_of_mem_replicate hm
  rw [scaleTrace, List.count_cons, List.count_append, h0]
  by_cases hc : scale + 1 < num_scales
  · rw [if_pos hc]
    by_cases hs : scale = s
    · subst hs
      simp [List.count_cons, hc]
    · simp [List.count_cons, hs, hc]
  · rw [if_neg hc]
    simp [List.count_cons, hc]

theorem countP_trainTrace_progressG (epochses : List ℕ) (D_step G_step : ℕ) :
    (trainTrace epochses D_step G_step).countP isProgressG
      = epochses.length - 1 := by
  rw [trainTrace, List.countP_flatten, List.map_map]
  have hmap : epochses.enum.map
        (List.countP isProgressG ∘ fun p => scaleTrace epochses.length p.1 p.2 D_step G_step)
      = epochses.enum.map
        ((fun i => if i + 1 < epochses.length then 1 else 0) ∘ Prod.fst) := by
    apply List.map_congr_left
    intro p _
    simp only [Function.comp_apply]
    exact countP_scaleTrace_progressG epochses.length p.1 p.2 D_step G_step
  rw [hmap, ← List.map_map, List.enum_map_fst, sum_range_progress]

theorem countP_trainTrace_progressD (epochses : List ℕ) (D_step G_step : ℕ) :
    (trainTrace epochses D_step G_step).countP isProgressD
      = epochses.length - 1 := by
  rw [trainTrace, List.countP_flatten, List.map_map]
  have hmap : epochses.enum.map
        (List.countP isProgressD ∘ fun p => scaleTrace epochses.length p.1 p.2 D_step G_step)
      = epochses.enum.map
        ((fun i => if i + 1 < epochses.length then 1 else 0) ∘ Prod.fst) := by
    apply List.map_congr_left
    intro p _
    simp only [Function.comp_apply]
    exact countP_scaleTrace_progressD epochses.length p.1 p.2 D_step G_step
  rw [hmap, ← List.map_map, List.enum_map_fst, sum_range_progress]

theorem count_trainTrace_progressG (epochses : List ℕ) (D_step G_step s : ℕ) :
    (trainTrace epochses D_step G_step).count (TrainEvent.progressG s)
      = if s + 1 < epochses.length then 1 else 0 := by
  rw [trainTrace, List.count_flatten, List.map_map]
  have hmap : epochses.enum.map
        ((fun l => List.count (TrainEvent.progressG s) l)
          ∘ fun p => scaleTrace epochses.length p.1 p.2 D_step G_step)
      = epochses.enum.map
        ((fun i => if i = s then (if s + 1 < epochses.length then 1 else 0) else 0)
          ∘ Prod.fst) := by
    apply List.map_congr_left
    intro p _
    simp only [Function.comp_apply]
    rw [count_scaleTrace_progressG epochses.length p.1 p.2 D_step G_step s]
    by_cases hs : p.1 = s
    · subst hs
      by_cases hc : p.1 + 1 < epochses.length
      · rw [if_pos ⟨rfl, hc⟩, if_pos rfl, if_pos hc]
      · rw [if_neg (by tauto), if_pos rfl, if_neg hc]
    · rw [if_neg (by tauto), if_neg hs]
  rw [hmap, ← List.map_map, List.enum_map_fst, sum_range_single]
  by_cases h1 : s + 1 < epochses.length
  · rw [if_pos (by omega), if_pos h1]
  · rw [if_neg h1]
    by_cases h2 : s < epochses.length
    · simp [h1, h2]
    · simp [h2]

theorem count_trainTrace_progressD (epochses : List ℕ) (D_step G_step s : ℕ) :
    (trainTrace epochses D_step G_step).count (TrainEvent.progressD s)
      = if s + 1 < epochses.length then 1 else 0 := by
  rw [trainTrace, List.count_flatten, List.map_map]
  have hmap : epochses.enum.map
        ((fun l => List.count (TrainEvent.progressD s) l)
          ∘ fun p => scaleTrace epochses.length p.1 p.2 D_step G_step)
      = epochses.enum.map
        ((fun i => if i = s then (if s + 1 < epochses.length then 1 else 0) else 0)
          ∘ Prod.fst) := by
    apply List.map_congr_left
    intro p _
    simp only [Function.comp_apply]
    rw [count_scaleTrace_progressD epochses.length p.1 p.2 D_step G_step s]
    by_cases hs : p.1 = s
    · subst hs
      by_cases hc : p.1 + 1 < epochses.length
      · rw [if_pos ⟨rfl, hc⟩, if_pos rfl, if_pos hc]
      · rw [if_neg (by tauto), if_pos rfl, if_neg hc]
    · rw [if_neg (by tauto), if_neg hs]
  rw [hmap, ← List.map_map, List.enum_map_fst, sum_range_single]
  by_cases h1 : s + 1 < epochses.length
  · rw [if_pos (by omega), if_pos h1]
  · rw [if_neg h1]
    by_cases h2 : s < epochses.length
    · simp [h1, h2]
    · simp [h2]

/-! ## Helper lemmas: gradient penalties -/

theorem imageSMulRight_eq_left (im : GanImage) (c : ℝ) :
    imageSMulRight im c = imageSMulLeft c im := by
  simp [imageSMulRight, imageSMulLeft, mul_comm]

/-! ## Claims -/

/-- Claim C1, counterexample: for max_size=100, min_size=25,
scale_factor=0.75 the schedule produced by load_real is not
[26, 34, 45, 60, 75, 100]. -/
theorem load_real_pyramid_100_not_spec_values :
    load_real_sizes 100 25 (3/4) 10 ≠ some [26, 34, 45, 60, 75, 100] := by
  have h : load_real_sizes 100 25 (3/4) 10 = some [24, 32, 42, 56, 75, 100] := by
    norm_num [load_real_sizes, sizesLoop, pyramidSize, pyRound,
      List.insertionSort, List.orderedInsert]
  rw [h]
  decide

/-- Claim C1, amended: for max_size=100, min_size=25, scale_factor=0.75
the pyramid size sequence produced by load_real (appending
round(max_size * scale_factor ** k) while the previous size exceeds
min_size, then sorting ascending) equals [24, 32, 42, 56, 75, 100]. -/
theorem load_real_pyramid_100_values :
    load_real_sizes 100 25 (3/4) 10 = some [24, 32, 42, 56, 75, 100] := by
  norm_num [load_real_sizes, sizesLoop, pyramidSize, pyRound,
    List.insertionSort, List.orderedInsert]

/-- Claim C3: the code performs no scale-factor validation: at
scale_factor = 1 (outside (0,1)), with max_size=100 and min_size=25, the
loop of load_real never terminates, for any iteration bound, instead of
raising an InvalidScaleFactor configuration error. -/
theorem load_real_diverges_scale_factor_one : neverTerminates 100 25 1 := by
  intro fuel
  rw [load_real_sizes, sizesLoop_one_none fuel []]
  rfl

/-- Claim C4, counterexample: with min_size = -1 < max_size = 1 and
scale_factor = 1/2 inside (0,1), the construction does not terminate:
the rounded sizes stay nonnegative and never drop below a negative
min_size, so load_real produces no schedule at all. -/
theorem load_real_sizes_negative_min_diverges :
    (0 : ℚ) < 1/2 ∧ (1/2 : ℚ) < 1 ∧ (-1 : ℤ) < 1 ∧
    neverTerminates 1 (-1) (1/2) := by
  refine ⟨by norm_num, by norm_num, by norm_num, ?_⟩
  intro fuel
  rw [load_real_sizes, sizesLoop_neg_min_none fuel [] 1 (by norm_num)]
  rfl

/-- Claim C4, amended: for 0 < scale_factor < 1 and
0 ≤ min_size < max_size, the loop of load_real terminates and the sorted
schedule is non-empty, ascending, bounded by max_size, and every entry
except the final boundary entry (the smallest one) exceeds min_size. -/
theorem load_real_sizes_valid_spec (max_size min_size : ℤ) (sf : ℚ)
    (h0 : 0 < sf) (h1 : sf < 1) (hm : 0 ≤ min_size) (hM : min_size < max_size) :
    ∃ (fuel : ℕ) (l : List ℤ),
      load_real_sizes max_size min_size sf fuel = some l ∧
      l ≠ [] ∧ l.Sorted (· ≤ ·) ∧ (∀ x ∈ l, x ≤ max_size) ∧
      (∀ x ∈ l.tail, min_size < x) := by
  classical
  obtain ⟨k, hk⟩ := pyramid_reaches_min max_size min_size sf h1 hm hM
  have hex : ∃ j, pyramidSize max_size sf j ≤ min_size := ⟨k, hk⟩
  set n := Nat.find hex with hn_def
  have hn : pyramidSize max_size sf n ≤ min_size := Nat.find_spec hex
  have hmin : ∀ i, i < n → min_size < pyramidSize max_size sf i := by
    intro i hi
    exact lt_of_not_le (Nat.find_min hex hi)
  set L := (List.range (n + 1)).map (pyramidSize max_size sf) with hL
  have hrun := sizesLoop_run max_size min_size sf n hmin hn (n + 1) 0 max_size
    (by omega) (by omega) (fun _ => hM) (by intro hcon; omega)
  refine ⟨n + 1, List.insertionSort (· ≤ ·) L, ?_, ?_, ?_, ?_, ?_⟩
  · rw [load_real_sizes]
    have h00 : (List.range 0).map (pyramidSize max_size sf) = [] := rfl
    rw [h00] at hrun
    rw [hrun]
    rfl
  · have hlen : (List.insertionSort (· ≤ ·) L).length = L.length :=
      (List.perm_insertionSort (· ≤ ·) L).length_eq
    intro hcon
    rw [hcon] at hlen
    simp only [List.length_nil, hL, List.length_map, List.length_range] at hlen
    omega
  · exact List.sorted_insertionSort (· ≤ ·) L
  · intro x hx
    have hxL : x ∈ L := (List.perm_insertionSort (· ≤ ·) L).mem_iff.mp hx
    rw [hL] at hxL
    simp only [List.mem_map, List.mem_range] at hxL
    obtain ⟨i, _, rfl⟩ := hxL
    exact pyramidSize_le max_size sf i (by omega) h0.le h1.le
  · apply sorted_tail_gt min_size _ (List.sorted_insertionSort (· ≤ ·) L)
    rw [(List.perm_insertionSort (· ≤ ·) L).countP_eq]
    exact pyramid_countP_boundary max_size min_size sf n hmin hn

/-- Claim C4, witness at the configuration of C1. -/
theorem load_real_sizes_valid_spec_witness :
    (0 : ℚ) < 3/4 ∧ (3/4 : ℚ) < 1 ∧ (0 : ℤ) ≤ 25 ∧ (25 : ℤ) < 100 ∧
    (∃ (fuel : ℕ) (l : List ℤ),
      load_real_sizes 100 25 (3/4) fuel = some l ∧
      l ≠ [] ∧ l.Sorted (· ≤ ·) ∧ (∀ x ∈ l, x ≤ 100) ∧
      (∀ x ∈ l.tail, 25 < x)) :=
  ⟨by norm_num, by norm_num, by norm_num, by norm_num,
    load_real_sizes_valid_spec 100 25 (3/4) (by norm_num) (by norm_num)
      (by norm_num) (by norm_num)⟩

/-- Claim C2, counterexample: the least-squares generator loss is not a
strictly decreasing function of the fake score: at fake scores 1 < 2 it
increases from 0 to 1/2. -/
theorem lsgan_g_loss_not_strict_anti :
    (1 : ℝ) < 2 ∧ ¬ LSGANLoss.g_loss [2] < LSGANLoss.g_loss [1] := by
  constructor
  · norm_num
  · rw [lsgan_g_loss_singleton, lsgan_g_loss_singleton]
    norm_num

/-- Claim C2, amended: for scalar fake scores a < b, the minimax,
Wasserstein and hinge generator losses strictly decrease, and the
least-squares generator loss strictly decreases provided b ≤ 1. -/
theorem g_loss_strict_anti_amended (a b : ℝ) (h : a < b) :
    GANLoss.g_loss [b] < GANLoss.g_loss [a] ∧
    WGANLoss.g_loss [b] < WGANLoss.g_loss [a] ∧
    HingeLoss.g_loss [b] < HingeLoss.g_loss [a] ∧
    (b ≤ 1 → LSGANLoss.g_loss [b] < LSGANLoss.g_loss [a]) := by
  refine ⟨?_, ?_, ?_, ?_⟩
  · rw [gan_g_loss_singleton, gan_g_loss_singleton]
    exact softplus_neg_strict_anti h
  · simp only [WGANLoss.g_loss, tmean_singleton]
    linarith
  · simp only [HingeLoss.g_loss, tmean_singleton]
    linarith
  · intro hb
    rw [lsgan_g_loss_singleton, lsgan_g_loss_singleton]
    nlinarith

/-- Claim C2, witness at fake scores 0 < 1. -/
theorem g_loss_strict_anti_amended_witness :
    (0 : ℝ) < 1 ∧
    (GANLoss.g_loss [1] < GANLoss.g_loss [0] ∧
     WGANLoss.g_loss [1] < WGANLoss.g_loss [0] ∧
     HingeLoss.g_loss [1] < HingeLoss.g_loss [0] ∧
     ((1 : ℝ) ≤ 1 → LSGANLoss.g_loss [1] < LSGANLoss.g_loss [0])) :=
  ⟨by norm_num, g_loss_strict_anti_amended 0 1 (by norm_num)⟩

/-- Claim C9: the least-squares discriminator loss on scalar scores r, f
equals ((r-1)^2 + f^2)/2 exactly; in particular it is 0 at (1, 0) and 1
at (0, 1). -/
theorem lsgan_d_loss_formula :
    (∀ r f : ℝ, LSGANLoss.d_loss [r] [f] = ((r - 1) ^ 2 + f ^ 2) / 2) ∧
    LSGANLoss.d_loss [1] [0] = 0 ∧ LSGANLoss.d_loss [0] [1] = 1 := by
  have key : ∀ r f : ℝ, LSGANLoss.d_loss [r] [f] = ((r - 1) ^ 2 + f ^ 2) / 2 := by
    intro r f
    rw [LSGANLoss.d_loss]
    simp only [List.length_cons, List.length_nil, List.replicate_succ,
      List.replicate_zero, mse_loss_singleton]
    ring
  refine ⟨key, ?_, ?_⟩ <;> rw [key] <;> norm_num

/-- Claim C10: dragan_gradient_penalty never returns a penalty value: the
final expression of the method references a name bound nowhere in its
scope, so every call fails instead of producing a result. -/
theorem dragan_penalty_never_returns
    (real : GanBatch) (D : Scorer) (alpha : List ℝ) (beta : GanBatch) :
    GradPenalty.dragan_gradient_penalty real D alpha beta = none := rfl

/-- Claim C5: both one-centered gradient penalties match the spec formula
mean((norm - center)^2) of the gradient norms on the interpolated batch:
calc_gradient_penalty_one with its per-sample coefficients at center 1,
and GradPenalty.gradient_penalty with one scalar coefficient per call at
its asserted center. -/
theorem gradient_penalty_one_matches_spec (D : Scorer)
    (real fake : GanBatch) (alpha_vec : List ℝ) (alpha center : ℝ)
    (halpha : 0 ≤ alpha ∧ alpha < 1) (hcenter : center = 1 ∨ center = 0) :
    calc_gradient_penalty_one D real fake alpha_vec
        = spec_one_centered_penalty D
            (spec_interp_per_sample alpha_vec real fake) 1 ∧
    GradPenalty.gradient_penalty real fake D alpha center
        = some (spec_one_centered_penalty D
            (spec_interp_scalar alpha real fake) center) := by
  constructor
  · rfl
  · rw [GradPenalty.gradient_penalty, if_pos hcenter]
    have hfun : (fun (r f : GanImage) =>
          imageAdd (imageSMulRight r alpha) (imageSMulRight f (1 - alpha)))
        = (fun r f =>
          imageAdd (imageSMulLeft alpha r) (imageSMulLeft (1 - alpha) f)) := by
      funext r f
      rw [imageSMulRight_eq_left, imageSMulRight_eq_left]
    rw [hfun]
    rfl

/-- Claim C5, witness on a one-sample batch with coefficient 1/2 and
center 1. -/
theorem gradient_penalty_one_matches_spec_witness :
    ((0 : ℝ) ≤ 1/2 ∧ (1/2 : ℝ) < 1) ∧ ((1 : ℝ) = 1 ∨ (1 : ℝ) = 0) ∧
    (calc_gradient_penalty_one idGradScorer [[[1]]] [[[0]]] [1/2]
        = spec_one_centered_penalty idGradScorer
            (spec_interp_per_sample [1/2] [[[1]]] [[[0]]]) 1 ∧
     GradPenalty.gradient_penalty [[[1]]] [[[0]]] idGradScorer (1/2) 1
        = some (spec_one_centered_penalty idGradScorer
            (spec_interp_scalar (1/2) [[[1]]] [[[0]]]) 1)) :=
  ⟨⟨by norm_num, by norm_num⟩, Or.inl rfl,
    gradient_penalty_one_matches_spec idGradScorer [[[1]]] [[[0]]] [1/2]
      (1/2) 1 ⟨by norm_num, by norm_num⟩ (Or.inl rfl)⟩

/-- Claim C6: the two zero-centered (R1-style) penalties agree and both
compute mean of the squared L2 norm of the per-sample flattened gradient
of the summed scores on the real batch, divided by 2. -/
theorem gradient_penalty_zero_equiv_spec (D : Scorer) (real : GanBatch) :
    calc_gradient_penalty_zero D real = GradPenalty.r1_regularizer real D ∧
    calc_gradient_penalty_zero D real = spec_zero_centered_penalty D real := by
  have hmap : (D.gradSum real).map
        (fun g => ((imageFlatten g).map (fun x => x ^ 2)).sum)
      = (D.gradSum real).map (fun g => norm2 (imageFlatten g) ^ 2) := by
    apply List.map_congr_left
    intro g _
    rw [norm2, Real.sq_sqrt]
    exact List.sum_nonneg (fun x hx => by
      simp only [List.mem_map] at hx
      obtain ⟨y, _, rfl⟩ := hx
      positivity)
  constructor
  · rw [calc_gradient_penalty_zero, GradPenalty.r1_regularizer, hmap]
  · rw [calc_gradient_penalty_zero, spec_zero_centered_penalty, hmap]

/-- Claim C7: a gp_type other than one / zero makes train raise its
configuration error with an empty event trace — before any optimizer is
created and before any training step runs, hence never mid-loop — while
for one / zero no error is ever raised. -/
theorem train_gp_type_validation (gp_type : String) (epochses : List ℕ)
    (D_step G_step : ℕ) :
    (gp_type ≠ "one" → gp_type ≠ "zero" →
      train gp_type epochses D_step G_step
        = ([], some ("no such type " ++ gp_type ++ "."))) ∧
    (gp_type = "one" ∨ gp_type = "zero" →
      (train gp_type epochses D_step G_step).2 = none) := by
  constructor
  · intro h1 h2
    rw [train, if_neg (by tauto)]
  · intro h
    rw [train_ok gp_type h]

/-- Claim C7, witness: the unknown type abc fails with an empty trace and
the type one runs without error. -/
theorem train_gp_type_validation_witness :
    train "abc" [2, 3] 1 1 = ([], some ("no such type " ++ "abc" ++ ".")) ∧
    (train "one" [2, 3] 1 1).2 = none :=
  ⟨(train_gp_type_validation "abc" [2, 3] 1 1).1 (by decide) (by decide),
   (train_gp_type_validation "one" [2, 3] 1 1).2 (Or.inl rfl)⟩

/-- Claim C8: a valid S-scale run produces exactly the closed-form trace,
in which the generator and discriminator progress events each occur
exactly S-1 times in total — exactly once for every scale s with
s+1 < S, placed after that scale's epochs and before the next scale, and
never for the last scale. -/
theorem train_progress_count (gp_type : String) (epochses : List ℕ)
    (D_step G_step : ℕ) (h : gp_type = "one" ∨ gp_type = "zero") :
    train gp_type epochses D_step G_step
        = (trainTrace epochses D_step G_step, none) ∧
    (trainTrace epochses D_step G_step).countP isProgressG
        = epochses.length - 1 ∧
    (trainTrace epochses D_step G_step).countP isProgressD
        = epochses.length - 1 ∧
    ∀ s : ℕ,
      (trainTrace epochses D_step G_step).count (TrainEvent.progressG s)
          = (if s + 1 < epochses.length then 1 else 0) ∧
      (trainTrace epochses D_step G_step).count (TrainEvent.progressD s)
          = (if s + 1 < epochses.length then 1 else 0) :=
  ⟨train_ok gp_type h epochses D_step G_step,
   countP_trainTrace_progressG epochses D_step G_step,
   countP_trainTrace_progressD epochses D_step G_step,
   fun s => ⟨count_trainTrace_progressG epochses D_step G_step s,
     count_trainTrace_progressD epochses D_step G_step s⟩⟩

/-- Claim C8, witness on a three-scale schedule. -/
theorem train_progress_count_witness :
    train "zero" [1, 1, 1] 2 2 = (trainTrace [1, 1, 1] 2 2, none) ∧
    (trainTrace [1, 1, 1] 2 2).countP isProgressG = 2 ∧
    (trainTrace [1, 1, 1] 2 2).countP isProgressD = 2 ∧
    (trainTrace [1, 1, 1] 2 2).count (TrainEvent.progressG 0) = 1 ∧
    (trainTrace [1, 1, 1] 2 2).count (TrainEvent.progressG 2) = 0 := by
  have h := train_progress_count "zero" [1, 1, 1] 2 2 (Or.inr rfl)
  refine ⟨h.1, h.2.1, h.2.2.1, ?_, ?_⟩
  · rw [(h.2.2.2 0).1]
    decide
  · rw [(h.2.2.2 2).1]
    decide
